import Mathlib

/-!
Verification of the portfolio rebalance calculator.

A shallow embedding of `src/rebalancer.js` (functions `roundToCents`,
`calculateDeviation`, `calculateBalancingContribution`, `rebalancePortfolio`)
over exact rationals.  JavaScript numbers are modelled as `ℚ`; `Math.round`
rounds half towards positive infinity, so `Math.round x = ⌊x + 1/2⌋`.
Division by zero in `ℚ` yields `0` (the JavaScript source would produce
`Infinity`/`NaN` there); no theorem or counterexample below exercises a
division-by-zero path except where the source itself guards it.
The two unbounded-looking loops of the source are embedded with explicit
fuel: the internal rebalance loop carries the source's own hard cap of 1000
iterations, and the contribution loop gets fuel that is proved sufficient
for it to reach its exit condition (the while-loop terminates).
-/

namespace Rebalancer

/-- `roundToCents(value)` from the source: `Math.round(value * 100) / 100`. -/
def roundToCents (value : ℚ) : ℚ :=
  (⌊value * 100 + 1 / 2⌋ : ℚ) / 100

/-- `calculateDeviation(actualPercent, targetPercent)` from the source:
`(actualPercent / targetPercent) - 1`, and `0` when `targetPercent` is `0`. -/
def calculateDeviation (actualPercent targetPercent : ℚ) : ℚ :=
  if targetPercent = 0 then 0 else actualPercent / targetPercent - 1

/-- A rational is cent-aligned when it is an integer number of cents. -/
def IsCentAligned (x : ℚ) : Prop := ∃ k : ℤ, x = (k : ℚ) / 100

theorem isCentAligned_roundToCents (x : ℚ) : IsCentAligned (roundToCents x) :=
  ⟨⌊x * 100 + 1 / 2⌋, rfl⟩

theorem roundToCents_eq_of_aligned {x : ℚ} (h : IsCentAligned x) :
    roundToCents x = x := by
  obtain ⟨k, rfl⟩ := h
  have h100 : (100 : ℚ) ≠ 0 := by norm_num
  rw [roundToCents, div_mul_cancel₀ _ h100]
  have hfl : ⌊(k : ℚ) + 1 / 2⌋ = k := by
    rw [add_comm, Int.floor_add_int]
    norm_num
  rw [hfl]

theorem roundToCents_mono {x y : ℚ} (h : x ≤ y) :
    roundToCents x ≤ roundToCents y := by
  unfold roundToCents
  have h1 : (⌊x * 100 + 1 / 2⌋ : ℤ) ≤ ⌊y * 100 + 1 / 2⌋ := by
    apply Int.floor_le_floor
    nlinarith
  have h2 : ((⌊x * 100 + 1 / 2⌋ : ℤ) : ℚ) ≤ ((⌊y * 100 + 1 / 2⌋ : ℤ) : ℚ) := by
    exact_mod_cast h1
  linarith

theorem roundToCents_zero : roundToCents 0 = 0 := by
  unfold roundToCents
  norm_num

theorem roundToCents_nonneg {x : ℚ} (h : 0 ≤ x) : 0 ≤ roundToCents x := by
  have := roundToCents_mono h
  rwa [roundToCents_zero] at this

theorem roundToCents_le (x : ℚ) : roundToCents x ≤ x + 1 / 200 := by
  unfold roundToCents
  have h := Int.floor_le (x * 100 + 1 / 2)
  have h2 : ((⌊x * 100 + 1 / 2⌋ : ℚ)) ≤ x * 100 + 1 / 2 := h
  linarith

theorem lt_roundToCents (x : ℚ) : x - 1 / 200 < roundToCents x := by
  unfold roundToCents
  have h := Int.lt_floor_add_one (x * 100 + 1 / 2)
  have h2 : x * 100 + 1 / 2 < (⌊x * 100 + 1 / 2⌋ : ℚ) + 1 := h
  linarith

theorem isCentAligned_add {x y : ℚ} (hx : IsCentAligned x) (hy : IsCentAligned y) :
    IsCentAligned (x + y) := by
  obtain ⟨j, rfl⟩ := hx
  obtain ⟨k, rfl⟩ := hy
  exact ⟨j + k, by push_cast; ring⟩

theorem isCentAligned_neg {x : ℚ} (hx : IsCentAligned x) : IsCentAligned (-x) := by
  obtain ⟨j, rfl⟩ := hx
  exact ⟨-j, by push_cast; ring⟩

theorem isCentAligned_sub {x y : ℚ} (hx : IsCentAligned x) (hy : IsCentAligned y) :
    IsCentAligned (x - y) := by
  rw [sub_eq_add_neg]
  exact isCentAligned_add hx (isCentAligned_neg hy)

theorem isCentAligned_zero : IsCentAligned 0 := ⟨0, by norm_num⟩

/-- A cent-aligned value strictly above one cent is at least two cents. -/
theorem aligned_gt_cent {x : ℚ} (hx : IsCentAligned x) (h : 1 / 100 < x) :
    2 / 100 ≤ x := by
  obtain ⟨k, rfl⟩ := hx
  have hk : (1 : ℚ) < (k : ℚ) := by
    have h100 : (0 : ℚ) < 100 := by norm_num
    rw [div_lt_div_iff₀ h100 h100] at h
    linarith
  have hk2 : (1 : ℤ) < k := by exact_mod_cast hk
  have hk3 : (2 : ℤ) ≤ k := hk2
  have hq : (2 : ℚ) ≤ (k : ℚ) := by exact_mod_cast hk3
  linarith

/-- Input record: one element of the `assetClasses` argument. -/
structure AssetClass where
  name : String
  targetPercent : ℚ
  currentValue : ℚ
  sell : Bool
deriving DecidableEq

/-- Internal mutable record built at the start of `rebalancePortfolio`. -/
structure WAsset where
  name : String
  targetPercent : ℚ
  currentValue : ℚ
  sell : Bool
  workingValue : ℚ
  transaction : ℚ
  targetValue : ℚ
deriving DecidableEq

instance : Inhabited WAsset := ⟨⟨"", 0, 0, false, 0, 0, 0⟩⟩

/-- One element of the returned `transactions` array. -/
structure Transaction where
  name : String
  amount : ℚ
  currentValue : ℚ
  finalValue : ℚ
  targetPercent : ℚ
  currentPercent : ℚ
  finalPercent : ℚ
deriving DecidableEq

/-- The returned `summary` object. -/
structure Summary where
  totalBefore : ℚ
  totalAfter : ℚ
  contribution : ℚ
deriving DecidableEq

/-- The full return value of `rebalancePortfolio`. -/
structure RebalanceResult where
  transactions : List Transaction
  summary : Summary
deriving DecidableEq

def sumValues (cs : List AssetClass) : ℚ := (cs.map AssetClass.currentValue).sum

def sumTargets (cs : List AssetClass) : ℚ := (cs.map AssetClass.targetPercent).sum

def sumWorking (l : List WAsset) : ℚ := (l.map WAsset.workingValue).sum

/-- Apply `f` to the element at position `i`, leaving the list unchanged when
`i` is out of range.  Models an in-place mutation of `assets[i]`. -/
def modifyIdx (f : WAsset → WAsset) (i : Nat) : List WAsset → List WAsset
  | [] => []
  | a :: rest => if i = 0 then f a :: rest else a :: modifyIdx f (i - 1) rest

/-- Element at position `i`, or the default record when out of range. -/
def getIdxD : List WAsset → Nat → WAsset
  | [], _ => default
  | a :: rest, i => if i = 0 then a else getIdxD rest (i - 1)

/-- Accumulator update for `selectIdx`: element `a` at index `k` replaces the
best candidate so far when it passes the filter and strictly improves. -/
def selectUpd (p : WAsset → Bool) (score : WAsset → ℚ) (better : ℚ → ℚ → Bool)
    (k : Nat) (acc : Option (Nat × ℚ)) (a : WAsset) : Option (Nat × ℚ) :=
  if p a then
    match acc with
    | none => some (k, score a)
    | some (i, s) => if better (score a) s then some (k, score a) else some (i, s)
  else acc

/-- Auxiliary scan for `selectIdx`: `k` is the index of the head of the
remaining list, `acc` the best `(index, score)` seen so far. -/
def selectIdxAux (p : WAsset → Bool) (score : WAsset → ℚ) (better : ℚ → ℚ → Bool) :
    Nat → Option (Nat × ℚ) → List WAsset → Option (Nat × ℚ)
  | _, acc, [] => acc
  | k, acc, a :: rest =>
      selectIdxAux p score better (k + 1) (selectUpd p score better k acc a) rest

/-- Index of the first element among those satisfying `p` whose score is
extremal for the strict comparison `better` (earliest element wins ties).
This models both the stable `sort(...)[0]` selections and the
`for`-loop argmin/argmax selections of the source. -/
def selectIdx (p : WAsset → Bool) (score : WAsset → ℚ) (better : ℚ → ℚ → Bool)
    (l : List WAsset) : Option (Nat × ℚ) :=
  selectIdxAux p score better 0 none l

/-- Loop body of `calculateBalancingContribution`: assets with positive target
percentage raise the running maximum to `requiredTotal - totalBefore`. -/
def balStep (totalBefore m : ℚ) (a : AssetClass) : ℚ :=
  if a.targetPercent > 0 then max m (a.currentValue * 100 / a.targetPercent - totalBefore)
  else m

/-- `calculateBalancingContribution(assetClasses)` from the source.  Throwing
`new Error(...)` is modelled as returning `.error`. -/
def calculateBalancingContribution (assetClasses : List AssetClass) :
    Except String ℚ :=
  if assetClasses.isEmpty then .error "assetClasses must be a non-empty array"
  else if |sumTargets assetClasses - 100| > 0.01 then
    .error "Target percentages must sum to 100%"
  else .ok (roundToCents (assetClasses.foldl (balStep (sumValues assetClasses)) 0))

/-- The working copies built at the start of `rebalancePortfolio`
(`workingValue = currentValue`, `transaction = 0`, rounded `targetValue`). -/
def mkWorkingAssets (totalAfter : ℚ) (cs : List AssetClass) : List WAsset :=
  cs.map fun a =>
    { name := a.name
      targetPercent := a.targetPercent
      currentValue := a.currentValue
      sell := a.sell
      workingValue := a.currentValue
      transaction := 0
      targetValue := roundToCents (a.targetPercent / 100 * totalAfter) }

/-- The source's `shouldDoInternalRebalancing` flag: some asset is sellable,
`totalAfter > 0.01`, and either no withdrawal or every asset is sellable. -/
def shouldDoInternalRebalancing (amount totalAfter : ℚ) (assets : List WAsset) : Bool :=
  let sellableCount := (assets.filter WAsset.sell).length
  decide (0 < sellableCount) && decide (totalAfter > 0.01) &&
    (decide (0 ≤ amount) || decide (sellableCount = assets.length))

/-- Deviation of one working asset, as recomputed at the top of each
internal-rebalancing iteration. -/
def devOf (totalAfter : ℚ) (a : WAsset) : ℚ :=
  calculateDeviation (a.workingValue / totalAfter * 100) a.targetPercent

/-- Filter for the seller of an internal transfer: sellable, more than one
cent of working value, deviation strictly above the `0.0001` tolerance. -/
def sellerPred (totalAfter : ℚ) (a : WAsset) : Bool :=
  a.sell && decide (a.workingValue > 0.01) && decide (devOf totalAfter a > 0.0001)

/-- Filter for the buyer of an internal transfer: sellable, deviation strictly
below `-0.0001`. -/
def buyerPred (totalAfter : ℚ) (a : WAsset) : Bool :=
  a.sell && decide (devOf totalAfter a < -0.0001)

/-- `min(max(0, sellerExcess), max(0, buyerDeficit), seller.workingValue)`
for the seller at index `i` and the buyer at index `j`. -/
def transferAmountOf (totalAfter : ℚ) (assets : List WAsset) (i j : Nat) : ℚ :=
  min (min (max 0 ((getIdxD assets i).workingValue -
      (getIdxD assets i).targetPercent / 100 * totalAfter))
    (max 0 ((getIdxD assets j).targetPercent / 100 * totalAfter -
      (getIdxD assets j).workingValue)))
    (getIdxD assets i).workingValue

/-- The seller's mutation in an internal transfer of (rounded) size `rT`. -/
def sellerUpd (rT : ℚ) (s : WAsset) : WAsset :=
  { s with
    workingValue := roundToCents (s.workingValue - rT)
    transaction := roundToCents (s.transaction - rT) }

/-- The buyer's mutation in an internal transfer of (rounded) size `rT`. -/
def buyerUpd (rT : ℚ) (b : WAsset) : WAsset :=
  { b with
    workingValue := roundToCents (b.workingValue + rT)
    transaction := roundToCents (b.transaction + rT) }

/-- One iteration of the internal-rebalancing `while` loop: pick the most
over-weighted sellable asset with positive value and the most under-weighted
sellable asset, and transfer between them.  `none` models `break`. -/
def internalStep (totalAfter : ℚ) (assets : List WAsset) : Option (List WAsset) :=
  match selectIdx (sellerPred totalAfter) (devOf totalAfter) (fun x s => decide (s < x)) assets,
      selectIdx (buyerPred totalAfter) (devOf totalAfter) (fun x s => decide (x < s)) assets with
  | some (i, _), some (j, _) =>
      if transferAmountOf totalAfter assets i j < 0.01 then none
      else
        some (modifyIdx (buyerUpd (roundToCents (transferAmountOf totalAfter assets i j))) j
          (modifyIdx (sellerUpd (roundToCents (transferAmountOf totalAfter assets i j))) i assets))
  | _, _ => none

/-- The internal-rebalancing loop; the source caps it at 1000 iterations. -/
def internalRebalanceLoop (totalAfter : ℚ) (fuel : Nat) (assets : List WAsset) :
    List WAsset :=
  if _h : fuel = 0 then assets
  else
    match internalStep totalAfter assets with
    | none => assets
    | some assets2 => internalRebalanceLoop totalAfter (fuel - 1) assets2
termination_by fuel
decreasing_by omega

/-- Shared shape of the source's withdrawal `for` loops: for every asset
satisfying `cond`, add `roundToCents (targetOf a - workingValue)` to
`workingValue` and `transaction` and subtract it from the running
`remainingAmount` (with rounding after every step, as in the source). -/
def applyAdjust (cond : WAsset → Bool) (targetOf : WAsset → ℚ) :
    List WAsset → ℚ → List WAsset × ℚ
  | [], rem => ([], rem)
  | a :: rest, rem =>
      if cond a then
        let adjustment := roundToCents (targetOf a - a.workingValue)
        let a2 := { a with
          workingValue := roundToCents (a.workingValue + adjustment)
          transaction := roundToCents (a.transaction + adjustment) }
        let next := applyAdjust cond targetOf rest (roundToCents (rem - adjustment))
        (a2 :: next.1, next.2)
      else
        let next := applyAdjust cond targetOf rest rem
        (a :: next.1, next.2)

/-- The full-liquidation special case (`|totalAfter| < 0.01`): every asset with
positive working value is driven to zero; note the source overwrites
`transaction` (rather than accumulating) and never updates `remainingAmount`. -/
def liquidateAll (assets : List WAsset) : List WAsset :=
  assets.map fun a =>
    if a.workingValue > 0 then
      { a with workingValue := 0, transaction := -a.workingValue }
    else a

/-- `canAchievePerfectBalance` from the source. -/
def canAchievePerfectBalance (totalAfter : ℚ) (assets : List WAsset) : Bool :=
  assets.all fun a => decide (a.targetPercent / 100 * totalAfter ≤ a.workingValue + 0.01)

/-- The withdrawal branch of Phase 2 (`amount < 0`), with all of its
layered fallbacks, returning the updated assets and `remainingAmount`. -/
def applyWithdrawal (amount totalBefore totalAfter : ℚ) (assets : List WAsset) :
    List WAsset × ℚ :=
  if |totalAfter| < 0.01 then (liquidateAll assets, amount)
  else if canAchievePerfectBalance totalAfter assets then
    let totalTargetPercent := (assets.map WAsset.targetPercent).sum
    applyAdjust (fun _ => true)
      (fun a => a.targetPercent / totalTargetPercent * totalAfter) assets amount
  else
    let sellableAssets := assets.filter WAsset.sell
    if sellableAssets.length > 0 then
      let sellableValue := sumWorking sellableAssets
      if |amount| ≤ sellableValue then
        let totalSellableTargetPercent := (sellableAssets.map WAsset.targetPercent).sum
        let sellableAfterTotal := sellableValue + amount
        applyAdjust (fun a => a.sell && decide (a.workingValue > 0.01))
          (fun a => a.targetPercent / totalSellableTargetPercent * sellableAfterTotal)
          assets amount
      else
        let totalTargetPercent := (assets.map WAsset.targetPercent).sum
        applyAdjust (fun a => decide (a.workingValue > 0.01))
          (fun a => a.targetPercent / totalTargetPercent * totalAfter) assets amount
    else
      let isOver := fun a =>
        decide (a.workingValue / totalBefore * 100 > a.targetPercent) &&
          decide (a.workingValue > 0.01)
      let overweightedAssets := assets.filter isOver
      if overweightedAssets.length > 0 then
        let totalOverweightedTargetPercent := (overweightedAssets.map WAsset.targetPercent).sum
        let totalOverweightedValue := sumWorking overweightedAssets
        let overweightedAfterTotal := totalOverweightedValue + amount
        applyAdjust isOver
          (fun a => a.targetPercent / totalOverweightedTargetPercent * overweightedAfterTotal)
          assets amount
      else
        let totalTargetPercent := (assets.map WAsset.targetPercent).sum
        applyAdjust (fun a => decide (a.workingValue > 0.01))
          (fun a => a.targetPercent / totalTargetPercent * totalAfter) assets amount

/-- Deviation as computed inside the contribution loop, which guards the
division by `totalAfter > 0`. -/
def devContrib (totalAfter : ℚ) (a : WAsset) : ℚ :=
  calculateDeviation (if totalAfter > 0 then a.workingValue / totalAfter * 100 else 0)
    a.targetPercent

/-- One iteration of the greedy contribution `while` loop: `none` models both
exit conditions (remaining amount at most `0.01`, no selectable asset, or no
applicable adjustment above `0.01`); `some` is one applied purchase of
`min(remainingAmount, max(0, targetValue - workingValue))`, rounded, for the
most under-weighted asset. -/
def contribStepFn (totalAfter : ℚ) (s : List WAsset × ℚ) :
    Option (List WAsset × ℚ) :=
  if |s.2| ≤ 0.01 then none
  else
    match selectIdx (fun _ => true) (devContrib totalAfter)
        (fun x b => decide (x < b)) s.1 with
    | none => none
    | some (i, _) =>
        let a := getIdxD s.1 i
        let neededAmount := a.targetValue - a.workingValue
        let adjustmentAmount := roundToCents (min s.2 (max 0 neededAmount))
        if |adjustmentAmount| > 0.01 then
          some (modifyIdx (buyerUpd adjustmentAmount) i s.1,
            roundToCents (s.2 - adjustmentAmount))
        else none

/-- The greedy contribution `while` loop of the source, with explicit fuel. -/
def contributionLoop (totalAfter : ℚ) (fuel : Nat) (s : List WAsset × ℚ) :
    List WAsset × ℚ :=
  if _h : fuel = 0 then s
  else
    match contribStepFn totalAfter s with
    | none => s
    | some s2 => contributionLoop totalAfter (fuel - 1) s2
termination_by fuel
decreasing_by omega

/-- Fuel that provably suffices for `contributionLoop` to reach its exit
condition when started with a non-negative remaining amount. -/
def contribFuel (amount : ℚ) : Nat := (Int.ceil (amount * 100)).toNat + 1

/-- Phase 3 of the source: if more than one cent of `remainingAmount` is left,
apply all of it to the most under-weighted asset (leftover contribution) or to
the most over-weighted asset with positive value (leftover withdrawal). -/
def applyResidual (amount totalAfter : ℚ) (assets : List WAsset) (rem : ℚ) :
    List WAsset :=
  if |rem| > 0.01 then
    if amount > 0 then
      match selectIdx (fun _ => true) (devOf totalAfter) (fun x b => decide (x < b)) assets with
      | some (i, _) =>
          modifyIdx (fun a => { a with
            workingValue := roundToCents (a.workingValue + rem)
            transaction := roundToCents (a.transaction + rem) }) i assets
      | none => assets
    else
      match selectIdx (fun a => decide (a.workingValue > 0)) (devOf totalAfter)
          (fun x b => decide (b < x)) assets with
      | some (i, _) =>
          modifyIdx (fun a => { a with
            workingValue := roundToCents (a.workingValue + rem)
            transaction := roundToCents (a.transaction + rem) }) i assets
      | none => assets
  else assets

/-- The asset list as it stands right before the result object is built:
working copies, then internal rebalancing, then the external amount,
then residual cleanup. -/
def finalAssets (amount : ℚ) (cs : List AssetClass) : List WAsset :=
  let totalBefore := sumValues cs
  let totalAfter := totalBefore + amount
  let assets := mkWorkingAssets totalAfter cs
  let assets1 :=
    if shouldDoInternalRebalancing amount totalAfter assets then
      internalRebalanceLoop totalAfter 1000 assets
    else assets
  let s2 :=
    if amount < 0 then applyWithdrawal amount totalBefore totalAfter assets1
    else contributionLoop totalAfter (contribFuel amount) (assets1, amount)
  applyResidual amount totalAfter s2.1 s2.2

/-- Build one output transaction record from a final working asset. -/
def mkTransaction (totalBefore totalAfter : ℚ) (a : WAsset) : Transaction :=
  { name := a.name
    amount := roundToCents a.transaction
    currentValue := roundToCents a.currentValue
    finalValue := roundToCents a.workingValue
    targetPercent := roundToCents a.targetPercent
    currentPercent := if totalBefore > 0 then roundToCents (a.currentValue / totalBefore * 100) else 0
    finalPercent := if totalAfter > 0 then roundToCents (a.workingValue / totalAfter * 100) else 0 }

/-- Everything `rebalancePortfolio` does after validation succeeds. -/
def rebalanceCore (amount : ℚ) (cs : List AssetClass) : RebalanceResult :=
  let totalBefore := sumValues cs
  let totalAfter := totalBefore + amount
  { transactions := (finalAssets amount cs).map (mkTransaction totalBefore totalAfter)
    summary :=
      { totalBefore := roundToCents totalBefore
        totalAfter := roundToCents totalAfter
        contribution := roundToCents amount } }

/-- `rebalancePortfolio(amount, assetClasses)` from the source; `throw` is
modelled as `.error` with the thrown message.  Note the source checks the
withdrawal bound before validating the target-percentage sum. -/
def rebalancePortfolio (amount : ℚ) (assetClasses : List AssetClass) :
    Except String RebalanceResult :=
  if assetClasses.isEmpty then .error "assetClasses must be a non-empty array"
  else if sumValues assetClasses + amount < 0 then
    .error "Withdrawal amount exceeds total portfolio value"
  else if |sumTargets assetClasses - 100| > 0.01 then
    .error "Target percentages must sum to 100%"
  else .ok (rebalanceCore amount assetClasses)

/-- Sum of the `amount` fields of the returned transactions. -/
def sumTxAmounts (r : RebalanceResult) : ℚ := (r.transactions.map Transaction.amount).sum

/-- `true` exactly when the call returned normally instead of throwing. -/
def isOkResult (e : Except String RebalanceResult) : Bool :=
  match e with
  | .ok _ => true
  | .error _ => false

theorem isOkResult_ok (r : RebalanceResult) : isOkResult (.ok r) = true := rfl

theorem isOkResult_error (s : String) : isOkResult (.error s) = false := rfl

/-- C2: `rebalancePortfolio` throws if and only if the list is empty, the
target percentages are off by more than `0.01`, or `totalBefore + amount < 0`;
every other input produces a normal result. -/
theorem rebalancePortfolio_ok_iff (amount : ℚ) (cs : List AssetClass) :
    isOkResult (rebalancePortfolio amount cs) = true ↔
      cs ≠ [] ∧ |sumTargets cs - 100| ≤ 0.01 ∧ 0 ≤ sumValues cs + amount := by
  unfold rebalancePortfolio
  split_ifs with h1 h2 h3
  · rw [isOkResult_error]
    constructor
    · intro hcon
      exact absurd hcon (by simp)
    · intro hc
      exact absurd (List.isEmpty_iff.mp h1) hc.1
  · rw [isOkResult_error]
    constructor
    · intro hcon
      exact absurd hcon (by simp)
    · intro hc
      exact absurd hc.2.2 (not_le.mpr h2)
  · rw [isOkResult_error]
    constructor
    · intro hcon
      exact absurd hcon (by simp)
    · intro hc
      exact absurd hc.2.1 (not_le.mpr h3)
  · rw [isOkResult_ok]
    constructor
    · intro _
      refine ⟨?_, not_lt.mp h3, not_lt.mp h2⟩
      intro hc
      subst hc
      exact h1 rfl
    · intro _
      rfl

/-- C10: when the list is non-empty, the withdrawal bound fails, and the
target-percentage sum is also invalid, the withdrawal error wins: the source
checks `totalAfter < 0` before validating the target sum. -/
theorem rebalancePortfolio_withdrawal_error_first (amount : ℚ) (cs : List AssetClass)
    (h1 : cs ≠ []) (h2 : sumValues cs + amount < 0)
    (h3 : |sumTargets cs - 100| > 0.01) :
    rebalancePortfolio amount cs = .error "Withdrawal amount exceeds total portfolio value" := by
  unfold rebalancePortfolio
  rw [if_neg, if_pos h2]
  intro hc
  exact h1 (List.isEmpty_iff.mp hc)

/-- Witness for C10 at a concrete input: one asset with target `50`
(target sum invalid) and a withdrawal exceeding the portfolio value. -/
theorem rebalancePortfolio_withdrawal_error_first_witness :
    ([⟨"A", 50, 5, false⟩] : List AssetClass) ≠ [] ∧
      sumValues [⟨"A", 50, 5, false⟩] + (-10) < 0 ∧
      |sumTargets [⟨"A", 50, 5, false⟩] - 100| > 0.01 ∧
      rebalancePortfolio (-10) [⟨"A", 50, 5, false⟩] =
        .error "Withdrawal amount exceeds total portfolio value" := by
  refine ⟨by decide, by norm_num [sumValues], by norm_num [sumTargets], ?_⟩
  exact rebalancePortfolio_withdrawal_error_first (-10) [⟨"A", 50, 5, false⟩]
    (by decide) (by norm_num [sumValues]) (by norm_num [sumTargets])

/-- The concrete input refuting C4: a withdrawal on a portfolio where one
asset is sellable but not all are. -/
def exC4 : List WAsset := mkWorkingAssets 90 [⟨"A", 50, 100, true⟩, ⟨"B", 50, 0, false⟩]

/-- C4 counterexample: an asset has `sell = true` and `totalAfter = 90 > 0.01`,
yet for the withdrawal `amount = -10` the internal rebalancing flag is `false`:
the loop's activation does depend on the sign of `amount`. -/
theorem shouldDoInternalRebalancing_counterexample :
    (∃ a ∈ exC4, a.sell = true) ∧ (0.01 : ℚ) < 90 ∧ (-10 : ℚ) < 0 ∧
      shouldDoInternalRebalancing (-10) 90 exC4 = false := by
  refine ⟨?_, by norm_num, by norm_num, ?_⟩
  · unfold exC4 mkWorkingAssets
    simp only [List.map_cons, List.map_nil]
    exact ⟨_, List.mem_cons_self _ _, rfl⟩
  · unfold shouldDoInternalRebalancing exC4 mkWorkingAssets
    simp only [List.map_cons, List.map_nil]
    norm_num [List.filter_cons]

/-- C4 amended: the internal rebalancing loop runs iff some asset is sellable,
`totalAfter > 0.01`, and additionally `amount ≥ 0` or every asset is sellable
(for withdrawals the loop runs only when all assets are sellable). -/
theorem shouldDoInternalRebalancing_iff (amount totalAfter : ℚ) (assets : List WAsset) :
    shouldDoInternalRebalancing amount totalAfter assets = true ↔
      (∃ a ∈ assets, a.sell = true) ∧ 0.01 < totalAfter ∧
        (0 ≤ amount ∨ ∀ a ∈ assets, a.sell = true) := by
  unfold shouldDoInternalRebalancing
  simp only [Bool.and_eq_true, Bool.or_eq_true, decide_eq_true_eq]
  constructor
  · rintro ⟨⟨hpos, hta⟩, hrest⟩
    refine ⟨?_, hta, ?_⟩
    · obtain ⟨a, ha⟩ := List.length_pos_iff_exists_mem.mp hpos
      exact ⟨a, (List.mem_filter.mp ha).1, (List.mem_filter.mp ha).2⟩
    · rcases hrest with h | h
      · exact Or.inl h
      · right
        intro a ha
        have hsub : (assets.filter WAsset.sell).Sublist assets := List.filter_sublist assets
        have heq : assets.filter WAsset.sell = assets := hsub.eq_of_length h
        have hmem : a ∈ assets.filter WAsset.sell := by rw [heq]; exact ha
        exact (List.mem_filter.mp hmem).2
  · rintro ⟨⟨a, ha, hsell⟩, hta, hrest⟩
    refine ⟨⟨?_, hta⟩, ?_⟩
    · exact List.length_pos_iff_exists_mem.mpr ⟨a, List.mem_filter.mpr ⟨ha, hsell⟩⟩
    · rcases hrest with h | h
      · exact Or.inl h
      · right
        rw [List.filter_eq_self.mpr h]

/-- Exact rounding-error bound for a sum: the rounded sum differs from the
sum of the two rounded parts by at most one cent. -/
theorem roundToCents_add_err (x y : ℚ) :
    |roundToCents (x + y) - (roundToCents x + roundToCents y)| ≤ 0.01 := by
  obtain ⟨ka, hka⟩ := isCentAligned_roundToCents (x + y)
  obtain ⟨kb, hkb⟩ := isCentAligned_roundToCents x
  obtain ⟨kc, hkc⟩ := isCentAligned_roundToCents y
  have h1 := roundToCents_le (x + y)
  have h2 := lt_roundToCents (x + y)
  have h3 := roundToCents_le x
  have h4 := lt_roundToCents x
  have h5 := roundToCents_le y
  have h6 := lt_roundToCents y
  have hd : roundToCents (x + y) - (roundToCents x + roundToCents y) =
      ((ka - kb - kc : ℤ) : ℚ) / 100 := by
    rw [hka, hkb, hkc]
    push_cast
    ring
  have hub : ((ka - kb - kc : ℤ) : ℚ) / 100 < 3 / 200 := by
    rw [← hd]
    linarith
  have hlb : -(3 / 200) < ((ka - kb - kc : ℤ) : ℚ) / 100 := by
    rw [← hd]
    linarith
  have hub2 : (ka - kb - kc : ℤ) ≤ 1 := by
    by_contra hc
    push_neg at hc
    have : (2 : ℚ) ≤ ((ka - kb - kc : ℤ) : ℚ) := by exact_mod_cast hc
    linarith
  have hlb2 : (-1 : ℤ) ≤ ka - kb - kc := by
    by_contra hc
    push_neg at hc
    have : ((ka - kb - kc : ℤ) : ℚ) ≤ -2 := by
      have : (ka - kb - kc : ℤ) ≤ -2 := by omega
      exact_mod_cast this
    linarith
  have hub3 : ((ka - kb - kc : ℤ) : ℚ) ≤ 1 := by exact_mod_cast hub2
  have hlb3 : (-1 : ℚ) ≤ ((ka - kb - kc : ℤ) : ℚ) := by exact_mod_cast hlb2
  rw [hd, abs_le]
  constructor <;> [linarith; linarith]

/-- If the three validation branches are passed, the call returns
`rebalanceCore` of the inputs. -/
theorem rebalancePortfolio_ok_inv {amount : ℚ} {cs : List AssetClass}
    {res : RebalanceResult} (h : rebalancePortfolio amount cs = .ok res) :
    res = rebalanceCore amount cs := by
  unfold rebalancePortfolio at h
  split_ifs at h
  all_goals cases h
  rfl

/-- The summary fields are the rounded raw totals, independent of the
transaction pipeline. -/
theorem rebalanceCore_summary (amount : ℚ) (cs : List AssetClass) :
    (rebalanceCore amount cs).summary =
      { totalBefore := roundToCents (sumValues cs)
        totalAfter := roundToCents (sumValues cs + amount)
        contribution := roundToCents amount } := rfl

/-- C8 amended: on every successful call, `totalAfter` differs from
`totalBefore + contribution` by at most one cent (the three fields round
`totalBefore + amount`, `totalBefore` and `amount` separately, so exact
equality can fail for non-cent-aligned inputs). -/
theorem summary_total_consistency (amount : ℚ) (cs : List AssetClass)
    (res : RebalanceResult) (h : rebalancePortfolio amount cs = .ok res) :
    |res.summary.totalAfter - (res.summary.totalBefore + res.summary.contribution)| ≤ 0.01 := by
  have hres := rebalancePortfolio_ok_inv h
  subst hres
  rw [rebalanceCore_summary]
  exact roundToCents_add_err (sumValues cs) amount

/-- Witness for C8 amended at a concrete valid input. -/
theorem summary_total_consistency_witness :
    |(rebalanceCore 10 [⟨"A", 100, 50, false⟩]).summary.totalAfter -
      ((rebalanceCore 10 [⟨"A", 100, 50, false⟩]).summary.totalBefore +
        (rebalanceCore 10 [⟨"A", 100, 50, false⟩]).summary.contribution)| ≤ 0.01 := by
  refine summary_total_consistency 10 [⟨"A", 100, 50, false⟩] _ ?_
  unfold rebalancePortfolio
  norm_num [sumValues, sumTargets]

/-- C8 counterexample: for the valid input `amount = 0.004`,
`assetClasses = [{target 100, value 0.004}]`, the summary has
`totalAfter = 0.01` but `totalBefore + contribution = 0`. -/
theorem summary_total_exact_counterexample :
    ∃ res, rebalancePortfolio 0.004 [⟨"A", 100, 0.004, false⟩] = .ok res ∧
      res.summary.totalAfter ≠ res.summary.totalBefore + res.summary.contribution := by
  refine ⟨rebalanceCore 0.004 [⟨"A", 100, 0.004, false⟩], ?_, ?_⟩
  · unfold rebalancePortfolio
    norm_num [sumValues, sumTargets]
  · rw [rebalanceCore_summary]
    unfold roundToCents sumValues
    norm_num

/-- The running maximum of `calculateBalancingContribution` is an upper bound
of all `requiredTotal - totalBefore` terms, at least its initial value, and
attained either at the initial value or at some asset. -/
theorem balFold_spec (tb : ℚ) (l : List AssetClass) : ∀ init : ℚ,
    init ≤ l.foldl (balStep tb) init ∧
      (∀ a ∈ l, 0 < a.targetPercent →
        a.currentValue * 100 / a.targetPercent - tb ≤ l.foldl (balStep tb) init) ∧
      (l.foldl (balStep tb) init = init ∨
        ∃ a ∈ l, 0 < a.targetPercent ∧
          l.foldl (balStep tb) init = a.currentValue * 100 / a.targetPercent - tb) := by
  induction l with
  | nil =>
      intro init
      exact ⟨le_refl _, by simp, Or.inl rfl⟩
  | cons a rest ih =>
      intro init
      rw [List.foldl_cons]
      obtain ⟨ih1, ih2, ih3⟩ := ih (balStep tb init a)
      have hstep : init ≤ balStep tb init a := by
        unfold balStep
        split_ifs
        · exact le_max_left _ _
        · exact le_refl _
      refine ⟨le_trans hstep ih1, ?_, ?_⟩
      · intro b hb hbt
        rcases List.mem_cons.mp hb with hba | hb2
        · subst hba
          have hle : b.currentValue * 100 / b.targetPercent - tb ≤ balStep tb init b := by
            unfold balStep
            rw [if_pos hbt]
            exact le_max_right _ _
          exact le_trans hle ih1
        · exact ih2 b hb2 hbt
      · rcases ih3 with he | ⟨b, hb, hbt, he⟩
        · rw [he]
          unfold balStep
          split_ifs with ht
          · rcases max_choice init (a.currentValue * 100 / a.targetPercent - tb) with hm | hm
            · exact Or.inl hm
            · exact Or.inr ⟨a, List.mem_cons_self _ _, ht, hm⟩
          · exact Or.inl rfl
        · exact Or.inr ⟨b, List.mem_cons.mpr (Or.inr hb), hbt, he⟩

/-- C5: for every valid asset list, `calculateBalancingContribution` returns
`roundToCents M` where `M` is exactly `max(0, max over assets with positive
target of requiredTotal - totalBefore)` (assets with zero target are skipped),
and returns `0` when every asset is at or under target. -/
theorem calculateBalancingContribution_spec (cs : List AssetClass)
    (h1 : cs ≠ []) (h2 : |sumTargets cs - 100| ≤ 0.01) :
    ∃ M, calculateBalancingContribution cs = .ok (roundToCents M) ∧ 0 ≤ M ∧
      (∀ a ∈ cs, 0 < a.targetPercent →
        a.currentValue * 100 / a.targetPercent - sumValues cs ≤ M) ∧
      (M = 0 ∨ ∃ a ∈ cs, 0 < a.targetPercent ∧
        M = a.currentValue * 100 / a.targetPercent - sumValues cs) ∧
      ((∀ a ∈ cs, 0 < a.targetPercent →
          a.currentValue * 100 / a.targetPercent ≤ sumValues cs) →
        calculateBalancingContribution cs = .ok 0) := by
  have hempty : ¬(cs.isEmpty = true) := by
    cases cs
    · exact absurd rfl h1
    · simp
  have hok : calculateBalancingContribution cs =
      .ok (roundToCents (cs.foldl (balStep (sumValues cs)) 0)) := by
    unfold calculateBalancingContribution
    rw [if_neg hempty, if_neg (not_lt.mpr h2)]
  obtain ⟨hf1, hf2, hf3⟩ := balFold_spec (sumValues cs) cs 0
  refine ⟨cs.foldl (balStep (sumValues cs)) 0, hok, hf1, hf2, hf3, ?_⟩
  intro hall
  have hzero : cs.foldl (balStep (sumValues cs)) 0 = 0 := by
    rcases hf3 with he | ⟨a, ha, hat, he⟩
    · exact he
    · have h3 := hall a ha hat
      have h4 : cs.foldl (balStep (sumValues cs)) 0 ≤ 0 := by
        rw [he]
        linarith
      linarith
  rw [hok, hzero, roundToCents_zero]

/-- The concrete input for the C5 witness: the README portfolio. -/
def exC5 : List AssetClass :=
  [⟨"Stocks", 80, 100000, false⟩, ⟨"Cash", 10, 40000, false⟩, ⟨"Bonds", 10, 50000, false⟩]

/-- Witness for C5 at the README portfolio. -/
theorem calculateBalancingContribution_spec_witness :
    ∃ M, calculateBalancingContribution exC5 = .ok (roundToCents M) ∧ 0 ≤ M ∧
      (∀ a ∈ exC5, 0 < a.targetPercent →
        a.currentValue * 100 / a.targetPercent - sumValues exC5 ≤ M) ∧
      (M = 0 ∨ ∃ a ∈ exC5, 0 < a.targetPercent ∧
        M = a.currentValue * 100 / a.targetPercent - sumValues exC5) ∧
      ((∀ a ∈ exC5, 0 < a.targetPercent →
          a.currentValue * 100 / a.targetPercent ≤ sumValues exC5) →
        calculateBalancingContribution exC5 = .ok 0) := by
  exact calculateBalancingContribution_spec exC5 (by simp [exC5]) (by norm_num [sumTargets, exC5])

theorem sumWorking_nil : sumWorking [] = 0 := rfl

theorem sumWorking_cons (a : WAsset) (l : List WAsset) :
    sumWorking (a :: l) = a.workingValue + sumWorking l := by
  simp [sumWorking]

theorem selectUpd_lt (p : WAsset → Bool) (f : WAsset → ℚ) (b : ℚ → ℚ → Bool)
    (k : Nat) (acc : Option (Nat × ℚ)) (a : WAsset)
    (hacc : ∀ j t, acc = some (j, t) → j < k) :
    ∀ j t, selectUpd p f b k acc a = some (j, t) → j < k + 1 := by
  intro j t hj
  unfold selectUpd at hj
  split_ifs at hj
  · cases hacc2 : acc with
    | none =>
        rw [hacc2] at hj
        simp at hj
        omega
    | some pair =>
        rw [hacc2] at hj
        obtain ⟨i3, s3⟩ := pair
        simp only at hj
        split_ifs at hj with hb
        · simp at hj
          omega
        · simp at hj
          have := hacc i3 s3 (by rw [hacc2])
          omega
  · have := hacc j t hj
    omega

theorem selectIdxAux_lt (p : WAsset → Bool) (f : WAsset → ℚ) (b : ℚ → ℚ → Bool) :
    ∀ (l : List WAsset) (k : Nat) (acc : Option (Nat × ℚ)) (i : Nat) (s : ℚ),
      (∀ j t, acc = some (j, t) → j < k) →
      selectIdxAux p f b k acc l = some (i, s) → i < k + l.length := by
  intro l
  induction l with
  | nil =>
      intro k acc i s hacc h
      simp only [selectIdxAux] at h
      simpa using hacc i s h
  | cons a rest ih =>
      intro k acc i s hacc h
      simp only [selectIdxAux] at h
      have := ih (k + 1) _ i s (selectUpd_lt p f b k acc a hacc) h
      simp at this ⊢
      omega

theorem selectIdx_lt {p : WAsset → Bool} {f : WAsset → ℚ} {b : ℚ → ℚ → Bool}
    {l : List WAsset} {i : Nat} {s : ℚ} (h : selectIdx p f b l = some (i, s)) :
    i < l.length := by
  have := selectIdxAux_lt p f b l 0 none i s (by simp) h
  simpa using this

theorem modifyIdx_length (f : WAsset → WAsset) :
    ∀ (i : Nat) (l : List WAsset), (modifyIdx f i l).length = l.length := by
  intro i l
  induction l generalizing i with
  | nil => rfl
  | cons a rest ih =>
      rw [modifyIdx]
      split_ifs
      · rfl
      · simp [ih]

/-- A pointwise update that shifts one cent-aligned working value by `δ` and
keeps it aligned shifts the total working value by `δ`. -/
theorem modifyIdx_sum_aligned (f : WAsset → WAsset) (δ : ℚ)
    (hf : ∀ a, IsCentAligned a.workingValue → (f a).workingValue = a.workingValue + δ)
    (hfa : ∀ a, IsCentAligned a.workingValue → IsCentAligned (f a).workingValue) :
    ∀ (l : List WAsset) (i : Nat), (∀ a ∈ l, IsCentAligned a.workingValue) →
      i < l.length →
      sumWorking (modifyIdx f i l) = sumWorking l + δ ∧
        ∀ a ∈ modifyIdx f i l, IsCentAligned a.workingValue := by
  intro l
  induction l with
  | nil =>
      intro i hal hi
      simp at hi
  | cons a rest ih =>
      intro i hal hi
      have hala : IsCentAligned a.workingValue := hal a (List.mem_cons_self _ _)
      rw [modifyIdx]
      split_ifs with h0
      · refine ⟨?_, ?_⟩
        · rw [sumWorking_cons, sumWorking_cons, hf a hala]
          ring
        · intro b hb
          rcases List.mem_cons.mp hb with hba | hb2
          · subst hba
            exact hfa a hala
          · exact hal b (List.mem_cons.mpr (Or.inr hb2))
      · have hi2 : i - 1 < rest.length := by
          simp at hi
          omega
        have hal2 : ∀ b ∈ rest, IsCentAligned b.workingValue := fun b hb =>
          hal b (List.mem_cons.mpr (Or.inr hb))
        obtain ⟨hsum, halm⟩ := ih (i - 1) hal2 hi2
        refine ⟨?_, ?_⟩
        · rw [sumWorking_cons, sumWorking_cons, hsum]
          ring
        · intro b hb
          rcases List.mem_cons.mp hb with hba | hb2
          · subst hba
            exact hala
          · exact halm b hb2

/-- One internal-rebalancing transfer keeps the total working value unchanged
and keeps all working values cent-aligned, provided they were aligned. -/
theorem internalStep_sum_aligned (tA : ℚ) (l l2 : List WAsset)
    (hal : ∀ a ∈ l, IsCentAligned a.workingValue)
    (h : internalStep tA l = some l2) :
    sumWorking l2 = sumWorking l ∧ ∀ a ∈ l2, IsCentAligned a.workingValue := by
  unfold internalStep at h
  split at h
  case h_2 => exact absurd h (by simp)
  case h_1 i si j sj hsell hbuy =>
    split_ifs at h with htr
    set rT := roundToCents (transferAmountOf tA l i j) with hrT
    have hrTa : IsCentAligned rT := isCentAligned_roundToCents _
    have hi : i < l.length := selectIdx_lt hsell
    have hj : j < l.length := selectIdx_lt hbuy
    injection h with h2
    subst h2
    obtain ⟨hsum1, hal1⟩ := modifyIdx_sum_aligned (sellerUpd rT) (-rT)
      (fun a ha => by
        show roundToCents (a.workingValue - rT) = a.workingValue + -rT
        rw [roundToCents_eq_of_aligned (isCentAligned_sub ha hrTa)]
        ring)
      (fun a ha => by
        show IsCentAligned (roundToCents (a.workingValue - rT))
        exact isCentAligned_roundToCents _)
      l i hal hi
    have hj2 : j < (modifyIdx (sellerUpd rT) i l).length := by
      rw [modifyIdx_length]
      exact hj
    obtain ⟨hsum2, hal2⟩ := modifyIdx_sum_aligned (buyerUpd rT) rT
      (fun a ha => by
        show roundToCents (a.workingValue + rT) = a.workingValue + rT
        exact roundToCents_eq_of_aligned (isCentAligned_add ha hrTa))
      (fun a ha => by
        show IsCentAligned (roundToCents (a.workingValue + rT))
        exact isCentAligned_roundToCents _)
      _ j hal1 hj2
    refine ⟨?_, hal2⟩
    rw [hsum2, hsum1]
    ring

/-- C6 amended: when every working value is cent-aligned (in particular for
portfolios whose current values are whole cents), the internal rebalancing
loop leaves the total working value exactly unchanged, for any fuel. -/
theorem internalRebalanceLoop_sum_preserved (tA : ℚ) (fuel : Nat)
    (assets : List WAsset) (hal : ∀ a ∈ assets, IsCentAligned a.workingValue) :
    sumWorking (internalRebalanceLoop tA fuel assets) = sumWorking assets := by
  induction fuel generalizing assets with
  | zero => rw [internalRebalanceLoop]; simp
  | succ n ih =>
      rw [internalRebalanceLoop]
      rw [dif_neg (Nat.succ_ne_zero n)]
      cases hstep : internalStep tA assets with
      | none => rfl
      | some l2 =>
          obtain ⟨hsum, hal2⟩ := internalStep_sum_aligned tA assets l2 hal hstep
          have hfuel : n + 1 - 1 = n := rfl
          rw [hfuel, ih l2 hal2, hsum]

/-- The concrete input refuting C6 as stated: working values `10.004` and
`0.004` are not whole cents. -/
def exC6 : List WAsset := mkWorkingAssets 10.008 [⟨"A", 50, 10.004, true⟩, ⟨"B", 50, 0.004, true⟩]

/-- State of `exC6` after the loop's single transfer of `5.00`. -/
def exC6b : List WAsset := [⟨"A", 50, 10.004, true, 5, -5, 5⟩, ⟨"B", 50, 0.004, true, 5, 5, 5⟩]

/-- C6 counterexample: for `amount = 0` on two sellable assets of values
`10.004` and `0.004` the internal loop does run (flag true), yet it changes
the total working value from `10.008` to `10.00`, because each rounded update
discards the sub-cent parts. -/
theorem internalRebalanceLoop_total_counterexample :
    shouldDoInternalRebalancing 0 10.008 exC6 = true ∧
      sumWorking (internalRebalanceLoop 10.008 1000 exC6) ≠ sumWorking exC6 := by
  have h1 : internalStep 10.008 exC6 = some exC6b := by
    norm_num [internalStep, selectIdx, selectIdxAux, selectUpd, sellerPred, buyerPred,
      devOf, calculateDeviation, transferAmountOf, getIdxD, modifyIdx, sellerUpd, buyerUpd,
      roundToCents, exC6, exC6b, mkWorkingAssets, min_def, max_def]
  have h2 : internalStep 10.008 exC6b = none := by
    norm_num [internalStep, selectIdx, selectIdxAux, selectUpd, sellerPred, buyerPred,
      devOf, calculateDeviation, transferAmountOf, getIdxD, modifyIdx, sellerUpd, buyerUpd,
      roundToCents, exC6b, min_def, max_def]
  constructor
  · norm_num [shouldDoInternalRebalancing, exC6, mkWorkingAssets, List.filter_cons]
  · rw [internalRebalanceLoop.eq_def, dif_neg (by norm_num : ¬(1000 = 0)), h1]
    change sumWorking (internalRebalanceLoop 10.008 (1000 - 1) exC6b) ≠ sumWorking exC6
    rw [internalRebalanceLoop.eq_def, dif_neg (by norm_num : ¬(1000 - 1 = 0)), h2]
    change sumWorking exC6b ≠ sumWorking exC6
    norm_num [sumWorking, exC6, exC6b, mkWorkingAssets]

/-- The concrete aligned input for the C6 witness. -/
def exC6w : List WAsset := mkWorkingAssets 110 [⟨"A", 60, 60, true⟩, ⟨"B", 40, 50, true⟩]

/-- Witness for C6 amended at a concrete cent-aligned input. -/
theorem internalRebalanceLoop_sum_preserved_witness :
    sumWorking (internalRebalanceLoop 110 1000 exC6w) = sumWorking exC6w := by
  refine internalRebalanceLoop_sum_preserved 110 1000 exC6w ?_
  intro a ha
  unfold exC6w mkWorkingAssets at ha
  simp only [List.map_cons, List.map_nil, List.mem_cons, List.not_mem_nil, or_false] at ha
  rcases ha with rfl | rfl
  · exact ⟨6000, by norm_num⟩
  · exact ⟨5000, by norm_num⟩

theorem roundToCents_neg_half_cent : roundToCents (-(1 / 200)) = 0 := by
  unfold roundToCents
  norm_num

/-- Facts about one productive iteration of the contribution loop: the new
remaining amount stays non-negative and its cent-count measure strictly
decreases (each applied adjustment is at least two cents and at most half a
cent above the remaining amount). -/
theorem contribStep_facts (rem needed : ℚ) (hrem : 0 ≤ rem)
    (hrem01 : ¬(|rem| ≤ 0.01))
    (hadj : |roundToCents (min rem (max 0 needed))| > 0.01) :
    0 ≤ roundToCents (rem - roundToCents (min rem (max 0 needed))) ∧
      (Int.ceil (roundToCents (rem - roundToCents (min rem (max 0 needed))) * 100)).toNat <
        (Int.ceil (rem * 100)).toNat := by
  set adj := roundToCents (min rem (max 0 needed)) with hadjdef
  have hadj0 : 0 ≤ adj := roundToCents_nonneg (le_min hrem (le_max_left 0 needed))
  have hadjA : IsCentAligned adj := isCentAligned_roundToCents _
  have hadj2 : 1 / 100 < adj := by
    rw [abs_of_nonneg hadj0] at hadj
    calc (1 / 100 : ℚ) = 0.01 := by norm_num
      _ < adj := hadj
  have hadj3 : 2 / 100 ≤ adj := aligned_gt_cent hadjA hadj2
  have hle : adj ≤ rem + 1 / 200 :=
    le_trans (roundToCents_mono (min_le_left _ _)) (roundToCents_le rem)
  have hn : 0 ≤ roundToCents (rem - adj) := by
    have h1 : -(1 / 200) ≤ rem - adj := by linarith
    have h2 := roundToCents_mono h1
    rw [roundToCents_neg_half_cent] at h2
    exact h2
  refine ⟨hn, ?_⟩
  have hub : roundToCents (rem - adj) ≤ rem - 3 / 200 := by
    have := roundToCents_le (rem - adj)
    linarith
  have h1 : (⌈roundToCents (rem - adj) * 100⌉ : ℤ) ≤ ⌈rem * 100 - 3 / 2⌉ := by
    apply Int.ceil_le_ceil
    nlinarith
  have h3 : (⌈rem * 100 - 3 / 2⌉ : ℤ) ≤ ⌈rem * 100 - 1⌉ := by
    apply Int.ceil_le_ceil
    linarith
  have h4 : (⌈rem * 100 - 1⌉ : ℤ) = ⌈rem * 100⌉ - 1 := by
    have := Int.ceil_sub_int (rem * 100) 1
    rw [show ((1 : ℤ) : ℚ) = 1 by norm_num] at this
    exact this
  have h5 : (1 : ℚ) < rem * 100 := by
    rw [abs_of_nonneg hrem, not_le] at hrem01
    calc (1 : ℚ) = 0.01 * 100 := by norm_num
      _ < rem * 100 := by nlinarith
  have h6 : (1 : ℤ) < ⌈rem * 100⌉ := by
    rw [Int.lt_ceil]
    exact_mod_cast h5
  have h7 : (0 : ℤ) ≤ ⌈roundToCents (rem - adj) * 100⌉ := by
    apply Int.ceil_nonneg
    nlinarith
  omega

/-- Unfolding equation for `contributionLoop` with non-zero fuel. -/
theorem contributionLoop_eq (tA : ℚ) (fuel : Nat) (s : List WAsset × ℚ)
    (hf : fuel ≠ 0) :
    contributionLoop tA fuel s =
      match contribStepFn tA s with
      | none => s
      | some s2 => contributionLoop tA (fuel - 1) s2 := by
  rw [contributionLoop.eq_def, dif_neg hf]

/-- A productive contribution step keeps the remaining amount non-negative
and strictly decreases its cent-count. -/
theorem contribStepFn_facts (tA : ℚ) (s s2 : List WAsset × ℚ) (hrem : 0 ≤ s.2)
    (h : contribStepFn tA s = some s2) :
    0 ≤ s2.2 ∧ (Int.ceil (s2.2 * 100)).toNat < (Int.ceil (s.2 * 100)).toNat := by
  unfold contribStepFn at h
  split_ifs at h with habs
  split at h
  next => exact absurd h (by simp)
  next acc i si hsel =>
    dsimp only at h
    split_ifs at h with hadj
    injection h with h2
    subst h2
    exact contribStep_facts s.2
      ((getIdxD s.1 i).targetValue - (getIdxD s.1 i).workingValue) hrem habs hadj

/-- The contribution loop is stable once the fuel exceeds the cent-count of
the remaining amount: adding extra fuel does not change the result, i.e. the
source's unbounded `while` loop terminates with this result. -/
theorem contributionLoop_stable (tA : ℚ) :
    ∀ (fuel : Nat) (s : List WAsset × ℚ), 0 ≤ s.2 →
      (Int.ceil (s.2 * 100)).toNat < fuel →
      ∀ extra : Nat, contributionLoop tA (fuel + extra) s = contributionLoop tA fuel s := by
  intro fuel
  induction fuel using Nat.strong_induction_on with
  | _ fuel ih =>
    intro s hrem hm extra
    have hfz : fuel ≠ 0 := by omega
    rw [contributionLoop_eq tA (fuel + extra) s (by omega),
      contributionLoop_eq tA fuel s hfz]
    cases hstep : contribStepFn tA s with
    | none => rfl
    | some s2 =>
        obtain ⟨hrem2, hm2⟩ := contribStepFn_facts tA s s2 hrem hstep
        simp only [hstep]
        have hfe : fuel + extra - 1 = (fuel - 1) + extra := by omega
        rw [hfe]
        exact ih (fuel - 1) (by omega) s2 hrem2 (by omega) extra

/-- C9: with the internal loop capped at 1000 iterations by construction, the
remaining source of non-termination is the contribution `while` loop; started
on any non-negative amount it reaches its exit condition within
`contribFuel amount` iterations — extra fuel never changes the result. -/
theorem contributionLoop_terminates (tA amount : ℚ) (assets : List WAsset)
    (h : 0 ≤ amount) (extra : Nat) :
    contributionLoop tA (contribFuel amount + extra) (assets, amount) =
      contributionLoop tA (contribFuel amount) (assets, amount) := by
  apply contributionLoop_stable tA (contribFuel amount) (assets, amount) h
  show (Int.ceil (amount * 100)).toNat < contribFuel amount
  unfold contribFuel
  omega

/-- Witness for C9 at a concrete input: the loop result with extra fuel `7`
matches the pipeline's own fuel. -/
theorem contributionLoop_terminates_witness :
    contributionLoop 110 (contribFuel 10 + 7) (exC6w, 10) =
      contributionLoop 110 (contribFuel 10) (exC6w, 10) :=
  contributionLoop_terminates 110 10 exC6w (by norm_num) 7

/-- Every element of `modifyIdx f i l` is an element of `l` or the image
under `f` of an element of `l`. -/
theorem mem_modifyIdx {f : WAsset → WAsset} {i : Nat} {l : List WAsset} {a : WAsset}
    (h : a ∈ modifyIdx f i l) : a ∈ l ∨ ∃ b ∈ l, a = f b := by
  induction l generalizing i with
  | nil => simp [modifyIdx] at h
  | cons c rest ih =>
      rw [modifyIdx] at h
      split_ifs at h with h0
      · rcases List.mem_cons.mp h with hac | har
        · exact Or.inr ⟨c, List.mem_cons_self _ _, hac⟩
        · exact Or.inl (List.mem_cons.mpr (Or.inr har))
      · rcases List.mem_cons.mp h with hac | har
        · exact Or.inl (hac ▸ List.mem_cons_self _ _)
        · rcases ih har with hm | ⟨b, hb, hab⟩
          · exact Or.inl (List.mem_cons.mpr (Or.inr hm))
          · exact Or.inr ⟨b, List.mem_cons.mpr (Or.inr hb), hab⟩

/-- All accumulated transactions are non-negative and cent-aligned. -/
def TxInv (l : List WAsset) : Prop :=
  ∀ a ∈ l, 0 ≤ a.transaction ∧ IsCentAligned a.transaction

theorem txInv_modifyIdx_add {l : List WAsset} {i : Nat} {δ : ℚ}
    (hδ : 0 ≤ δ) (hinv : TxInv l) :
    TxInv (modifyIdx (buyerUpd δ) i l) := by
  intro a ha
  rcases mem_modifyIdx ha with hm | ⟨b, hb, hab⟩
  · exact hinv a hm
  · obtain ⟨hb0, hba⟩ := hinv b hb
    subst hab
    constructor
    · show 0 ≤ roundToCents (b.transaction + δ)
      have h1 : b.transaction ≤ b.transaction + δ := by linarith
      have h2 := roundToCents_mono h1
      rw [roundToCents_eq_of_aligned hba] at h2
      linarith
    · exact isCentAligned_roundToCents _

/-- A contribution step preserves non-negativity and alignment of all
transactions together with non-negativity of the remaining amount. -/
theorem contribStepFn_inv (tA : ℚ) (s s2 : List WAsset × ℚ)
    (hrem : 0 ≤ s.2) (hinv : TxInv s.1)
    (h : contribStepFn tA s = some s2) :
    0 ≤ s2.2 ∧ TxInv s2.1 := by
  have hfacts := contribStepFn_facts tA s s2 hrem h
  refine ⟨hfacts.1, ?_⟩
  unfold contribStepFn at h
  split_ifs at h with habs
  split at h
  next => exact absurd h (by simp)
  next acc i si hsel =>
    dsimp only at h
    split_ifs at h with hadj
    injection h with h2
    subst h2
    have hδ : 0 ≤ roundToCents (min s.2 (max 0
        ((getIdxD s.1 i).targetValue - (getIdxD s.1 i).workingValue))) :=
      roundToCents_nonneg (le_min hrem (le_max_left _ _))
    exact txInv_modifyIdx_add hδ hinv

/-- The contribution loop preserves the invariant for any fuel. -/
theorem contributionLoop_inv (tA : ℚ) :
    ∀ (fuel : Nat) (s : List WAsset × ℚ), 0 ≤ s.2 → TxInv s.1 →
      0 ≤ (contributionLoop tA fuel s).2 ∧ TxInv (contributionLoop tA fuel s).1 := by
  intro fuel
  induction fuel using Nat.strong_induction_on with
  | _ fuel ih =>
    intro s hrem hinv
    by_cases hfz : fuel = 0
    · subst hfz
      rw [contributionLoop.eq_def, dif_pos rfl]
      exact ⟨hrem, hinv⟩
    · rw [contributionLoop_eq tA fuel s hfz]
      cases hstep : contribStepFn tA s with
      | none => exact ⟨hrem, hinv⟩
      | some s2 =>
          obtain ⟨hrem2, hinv2⟩ := contribStepFn_inv tA s s2 hrem hinv hstep
          exact ih (fuel - 1) (by omega) s2 hrem2 hinv2

/-- Residual cleanup preserves the invariant when the leftover is a
non-negative contribution residue. -/
theorem applyResidual_inv (amount tA : ℚ) (assets : List WAsset) (rem : ℚ)
    (hamt : 0 < amount) (hrem : 0 ≤ rem) (hinv : TxInv assets) :
    TxInv (applyResidual amount tA assets rem) := by
  unfold applyResidual
  by_cases h1 : |rem| > 0.01
  · rw [if_pos h1, if_pos hamt]
    cases hsel : selectIdx (fun x => true) (devOf tA) (fun x b => decide (x < b)) assets with
    | none => exact hinv
    | some pair =>
        obtain ⟨i, si⟩ := pair
        intro a ha
        rcases mem_modifyIdx ha with hm | ⟨b, hb, hab⟩
        · exact hinv a hm
        · obtain ⟨hb0, hba⟩ := hinv b hb
          subst hab
          constructor
          · show 0 ≤ roundToCents (b.transaction + rem)
            have hmono := roundToCents_mono (by linarith : b.transaction ≤ b.transaction + rem)
            rw [roundToCents_eq_of_aligned hba] at hmono
            linarith
          · exact isCentAligned_roundToCents _
  · rw [if_neg h1]
    exact hinv

/-- With no sellable asset the internal-rebalancing flag is off. -/
theorem shouldDo_false_of_no_sell (amount tA : ℚ) (assets : List WAsset)
    (h : ∀ a ∈ assets, a.sell = false) :
    shouldDoInternalRebalancing amount tA assets = false := by
  unfold shouldDoInternalRebalancing
  have hfil : assets.filter WAsset.sell = [] := by
    rw [List.filter_eq_nil_iff]
    intro a ha
    simp [h a ha]
  rw [hfil]
  simp

theorem rebalanceCore_transactions (amount : ℚ) (cs : List AssetClass) :
    (rebalanceCore amount cs).transactions =
      (finalAssets amount cs).map
        (mkTransaction (sumValues cs) (sumValues cs + amount)) := rfl

/-- C7: for a valid pure contribution (`amount > 0`, no asset sellable),
every returned transaction amount is non-negative: contributions never force
a sale. -/
theorem contribution_no_sell_nonneg (amount : ℚ) (cs : List AssetClass)
    (res : RebalanceResult) (hok : rebalancePortfolio amount cs = .ok res)
    (hamt : 0 < amount) (hsell : ∀ c ∈ cs, c.sell = false) :
    ∀ t ∈ res.transactions, 0 ≤ t.amount := by
  have hres := rebalancePortfolio_ok_inv hok
  subst hres
  rw [rebalanceCore_transactions]
  intro t ht
  obtain ⟨a, ha, hta⟩ := List.mem_map.mp ht
  subst hta
  show 0 ≤ roundToCents a.transaction
  suffices hfin : TxInv (finalAssets amount cs) by
    exact roundToCents_nonneg (hfin a ha).1
  simp only [finalAssets]
  have hsellw : ∀ w ∈ mkWorkingAssets (sumValues cs + amount) cs, w.sell = false := by
    intro w hw
    obtain ⟨c, hc, hcw⟩ := List.mem_map.mp hw
    subst hcw
    exact hsell c hc
  rw [shouldDo_false_of_no_sell amount (sumValues cs + amount) _ hsellw]
  simp only [Bool.false_eq_true, if_false]
  rw [if_neg (by linarith : ¬amount < 0)]
  have hmk : TxInv (mkWorkingAssets (sumValues cs + amount) cs) := by
    intro w hw
    obtain ⟨c, hc, hcw⟩ := List.mem_map.mp hw
    subst hcw
    exact ⟨le_refl 0, isCentAligned_zero⟩
  obtain ⟨hrem2, hinv2⟩ := contributionLoop_inv (sumValues cs + amount)
    (contribFuel amount) (mkWorkingAssets (sumValues cs + amount) cs, amount)
    (le_of_lt hamt) hmk
  exact applyResidual_inv amount (sumValues cs + amount) _ _ hamt hrem2 hinv2

/-- The concrete input for the C7 witness: the README portfolio with a
`25000` contribution. -/
def exC7 : List AssetClass :=
  [⟨"Stocks", 80, 100000, false⟩, ⟨"Cash", 10, 40000, false⟩, ⟨"Bonds", 10, 50000, false⟩]

/-- Witness for C7 at a concrete valid input. -/
theorem contribution_no_sell_nonneg_witness :
    (rebalanceCore 25000 exC7).transactions.all (fun t => decide (0 ≤ t.amount)) = true := by
  rw [List.all_eq_true]
  intro t ht
  apply decide_eq_true
  revert t ht
  refine contribution_no_sell_nonneg 25000 exC7 _ ?_ (by norm_num) ?_
  · unfold rebalancePortfolio
    norm_num [sumValues, sumTargets, exC7]
  · intro c hc
    fin_cases hc <;> rfl

/-- The full-liquidation special case of the withdrawal branch. -/
theorem applyWithdrawal_liquidate (amount totalBefore totalAfter : ℚ)
    (assets : List WAsset) (h : |totalAfter| < 0.01) :
    applyWithdrawal amount totalBefore totalAfter assets = (liquidateAll assets, amount) := by
  unfold applyWithdrawal
  rw [if_pos h]

/-- The concrete input exhibiting the conservation failure of C1: ten assets
of value `1.004` each and a withdrawal of the full portfolio value. -/
def exC1 : List AssetClass :=
  [⟨"A0", 10, 1.004, false⟩, ⟨"A1", 10, 1.004, false⟩, ⟨"A2", 10, 1.004, false⟩,
   ⟨"A3", 10, 1.004, false⟩, ⟨"A4", 10, 1.004, false⟩, ⟨"A5", 10, 1.004, false⟩,
   ⟨"A6", 10, 1.004, false⟩, ⟨"A7", 10, 1.004, false⟩, ⟨"A8", 10, 1.004, false⟩,
   ⟨"A9", 10, 1.004, false⟩]

/-- Working copy of one `exC1` asset at the start of the pipeline. -/
def wC1 : WAsset := ⟨"", 10, 1.004, false, 1.004, 0, 0⟩

def exC1w : List WAsset :=
  [{wC1 with name := "A0"}, {wC1 with name := "A1"}, {wC1 with name := "A2"},
   {wC1 with name := "A3"}, {wC1 with name := "A4"}, {wC1 with name := "A5"},
   {wC1 with name := "A6"}, {wC1 with name := "A7"}, {wC1 with name := "A8"},
   {wC1 with name := "A9"}]

/-- One `exC1` asset after the full-liquidation branch. -/
def wC1b : WAsset := ⟨"", 10, 1.004, false, 0, -1.004, 0⟩

def exC1w2 : List WAsset :=
  [{wC1b with name := "A0"}, {wC1b with name := "A1"}, {wC1b with name := "A2"},
   {wC1b with name := "A3"}, {wC1b with name := "A4"}, {wC1b with name := "A5"},
   {wC1b with name := "A6"}, {wC1b with name := "A7"}, {wC1b with name := "A8"},
   {wC1b with name := "A9"}]

/-- C1 failing input, evaluated: withdrawing `10.04` from ten assets of
`1.004` each passes validation (`totalAfter = 0`), yet the returned
transactions sum to `-10.00`: the full-liquidation branch rounds each
`-1.004` to `-1.00` and the half-cent losses are never redistributed, so
conservation fails by `0.04 > 0.02`. -/
theorem conservation_failure_eval :
    (rebalancePortfolio (-10.04) exC1).toOption.map sumTxAmounts = some (-10) ∧
      ¬(|(-10 : ℚ) - (-10.04)| ≤ 0.02) := by
  constructor
  · have hsum : sumValues exC1 = 10.04 := by norm_num [sumValues, exC1]
    have htA : sumValues exC1 + (-10.04) = 0 := by rw [hsum]; norm_num
    have hw0 : mkWorkingAssets 0 exC1 = exC1w := by
      norm_num [mkWorkingAssets, exC1, exC1w, wC1, roundToCents]
    have hshould : shouldDoInternalRebalancing (-10.04) 0 exC1w = false := by
      norm_num [shouldDoInternalRebalancing, exC1w, wC1, List.filter_cons]
    have hliq : liquidateAll exC1w = exC1w2 := by
      norm_num [liquidateAll, exC1w, exC1w2, wC1, wC1b]
    have hres : applyResidual (-10.04) 0 exC1w2 (-10.04) = exC1w2 := by
      unfold applyResidual
      rw [if_pos (by norm_num [abs_of_nonneg] : |(-10.04 : ℚ)| > 0.01)]
      rw [if_neg (by norm_num : ¬((-10.04 : ℚ) > 0))]
      norm_num [selectIdx, selectIdxAux, selectUpd, exC1w2, wC1b]
    have hfin : finalAssets (-10.04) exC1 = exC1w2 := by
      simp only [finalAssets]
      rw [htA, hw0, hshould]
      simp only [Bool.false_eq_true, if_false]
      rw [if_pos (by norm_num : (-10.04 : ℚ) < 0)]
      rw [applyWithdrawal_liquidate _ _ _ _ (by norm_num : |(0 : ℚ)| < 0.01)]
      rw [hliq]
      exact hres
    have hok : rebalancePortfolio (-10.04) exC1 = .ok (rebalanceCore (-10.04) exC1) := by
      unfold rebalancePortfolio
      rw [if_neg (by norm_num [exC1] : ¬(exC1.isEmpty = true))]
      rw [if_neg (by rw [htA]; norm_num : ¬(sumValues exC1 + (-10.04) < 0))]
      rw [if_neg (by norm_num [sumTargets, exC1] : ¬(|sumTargets exC1 - 100| > 0.01))]
    rw [hok]
    show some (sumTxAmounts (rebalanceCore (-10.04) exC1)) = some (-10)
    have htx : sumTxAmounts (rebalanceCore (-10.04) exC1) =
        (((finalAssets (-10.04) exC1).map
          (mkTransaction (sumValues exC1) (sumValues exC1 + (-10.04)))).map
            Transaction.amount).sum := rfl
    rw [htx, hfin]
    norm_num [exC1w2, wC1b, mkTransaction, roundToCents]
  · norm_num [abs_of_nonneg]

/-- The concrete input exhibiting the negative final value of C3. -/
def exC3 : List AssetClass := [⟨"A", 1, 2, false⟩, ⟨"B", 1, 0, false⟩, ⟨"C", 98, 98, false⟩]

/-- C3 failing input, evaluated: withdrawing `3` from the valid portfolio
`[(1%, 2), (1%, 0), (98%, 98)]` with no sellable asset drives asset `A` to a
final value of `-1`: the overweighted-assets fallback targets
`overweightedAfterTotal = 2 - 3 = -1` and overdraws the only overweighted
asset. -/
theorem negative_finalValue_eval :
    (rebalancePortfolio (-3) exC3).toOption.map
        (fun res => res.transactions.map Transaction.finalValue) = some [-1, 0, 98] ∧
      ¬((0 : ℚ) ≤ -1) := by
  constructor
  · norm_num [rebalancePortfolio, rebalanceCore, finalAssets, mkWorkingAssets,
      shouldDoInternalRebalancing, applyWithdrawal, canAchievePerfectBalance, liquidateAll,
      applyAdjust, applyResidual, sumWorking, sumValues, sumTargets,
      roundToCents, getIdxD, modifyIdx, selectIdx, selectIdxAux, selectUpd,
      devOf, devContrib, calculateDeviation, mkTransaction, exC3,
      List.filter_cons, min_def, max_def, Except.toOption]
  · norm_num

end Rebalancer
